import Mathlib

/-!
# Verification of the MPI Game of Life core

Shallow embedding of `src/08_mpi_gol/src/main.cpp`: the row partitioner,
the ring neighbor computation, the halo-exchange addressing convention,
the grid buffers with their glider initialization, and the stencil update
loop.  Machine integers (`usize`, `int`, `u8`) are modelled as `Nat`; all
values involved (grid sizes, ranks, cell states 0/1) are small and
non-negative, so no overflow or sign issues arise in the modelled domain.
The 2-D `mdspan` view over each flat buffer is modelled as a list of rows
(`List (List Nat)`), with reads and writes by (row, column) index.
-/

namespace MpiGol

/-- `enum IDType : int { glider_id, random_id }` (main.cpp line 21). -/
inductive IDType where
  | glider_id : IDType
  | random_id : IDType
deriving DecidableEq

/-- `struct SimulationData` (main.cpp lines 23-30), with the defaults of the
C++ member initializers. -/
structure SimulationData where
  grid_size : Nat := 32
  generations : Nat := 32
  stats_every : Nat := 1
  data_every : Nat := 1
  random_seed : Nat := 64
  id_type : IDType := IDType.random_id
deriving DecidableEq

/-- `struct Partition` (main.cpp lines 33-38). -/
structure Partition where
  rank : Nat
  size : Nat
  local_rows : Nat
  row_offset : Nat
deriving DecidableEq

/-- `compute_partition` (main.cpp lines 40-53).  `rank` and `size` are C
`int`s cast to `usize`; in every call `0 ≤ rank < size`, so both casts are
value-preserving and `Nat` models them exactly. -/
def compute_partition (sd : SimulationData) (rank size : Nat) : Partition :=
  let base := sd.grid_size / size
  let rem := sd.grid_size % size
  let lcl := base + (if rank < rem then 1 else 0)
  let offset := base * rank + min rank rem
  ⟨rank, size, lcl, offset⟩

/-- `const int up = (rank - 1 + size) % size` (main.cpp line 176).  The C
expression is evaluated in `int`; since `0 ≤ rank` and `1 ≤ size` the
intermediate `rank - 1 + size` is non-negative and equals `rank + size - 1`
over `Nat`. -/
def up (size rank : Nat) : Nat := (rank + size - 1) % size

/-- `const int down = (rank + 1) % size` (main.cpp line 177). -/
def down (size rank : Nat) : Nat := (rank + 1) % size

/-! Halo-exchange call sites (main.cpp lines 187-202).  Each of the four MPI
calls is characterized by its peer rank, its message tag, and the buffer row
it touches; those three attributes are transcribed below, one definition per
attribute per call. -/

/-- Peer of `MPI_Irecv` into the top halo row (main.cpp lines 188-189). -/
def recv_top_src (size rank : Nat) : Nat := up size rank

/-- Tag of `MPI_Irecv` into the top halo row (main.cpp lines 188-189). -/
def recv_top_tag : Nat := 0

/-- Row filled by `MPI_Irecv` into the top halo (main.cpp lines 188-189). -/
def recv_top_row : Nat := 0

/-- Peer of `MPI_Irecv` into the bottom halo row (main.cpp lines 190-191). -/
def recv_bottom_src (size rank : Nat) : Nat := down size rank

/-- Tag of `MPI_Irecv` into the bottom halo row (main.cpp lines 190-191). -/
def recv_bottom_tag : Nat := 1

/-- Row filled by `MPI_Irecv` into the bottom halo (main.cpp lines 190-191). -/
def recv_bottom_row (local_rows : Nat) : Nat := local_rows + 1

/-- Peer of `MPI_Isend` of the bottom owned row (main.cpp lines 199-200). -/
def send_down_dst (size rank : Nat) : Nat := down size rank

/-- Tag of `MPI_Isend` of the bottom owned row (main.cpp lines 199-200). -/
def send_down_tag : Nat := 0

/-- Row sent by `MPI_Isend` of the bottom owned row (main.cpp lines 199-200). -/
def send_down_row (local_rows : Nat) : Nat := local_rows

/-- Peer of `MPI_Isend` of the top owned row (main.cpp lines 201-202). -/
def send_up_dst (size rank : Nat) : Nat := up size rank

/-- Tag of `MPI_Isend` of the top owned row (main.cpp lines 201-202). -/
def send_up_tag : Nat := 1

/-- Row sent by `MPI_Isend` of the top owned row (main.cpp lines 201-202). -/
def send_up_row : Nat := 1

/-! ## Grid buffers

Each worker's flat buffer of `(local_rows + 2) * grid_size` cells, viewed
through `mdspan` as rows × columns (main.cpp lines 132-142), is modelled as a
list of rows.  Reads and writes at (row, column) mirror `grid(r, c)`;
out-of-range reads return a default and out-of-range writes are dropped, which
never happens in the modelled in-bounds executions. -/

abbrev Grid := List (List Nat)

/-- List lookup with an explicit default. -/
def lget {α : Type} (d : α) : List α → Nat → α
  | [], _ => d
  | x :: _, 0 => x
  | _ :: xs, n + 1 => lget d xs n

/-- List update; out-of-range indices leave the list unchanged. -/
def lset {α : Type} : List α → Nat → α → List α
  | [], _, _ => []
  | _ :: xs, 0, v => v :: xs
  | x :: xs, n + 1, v => x :: lset xs n v

/-- The row at index `r` (the target of `row_ptr`, main.cpp line 62). -/
def getRow (g : Grid) (r : Nat) : List Nat := lget [] g r

/-- Replace the row at index `r` (an MPI receive into that row). -/
def setRow (g : Grid) (r : Nat) (row : List Nat) : Grid := lset g r row

/-- Read `grid(r, c)`. -/
def gridGet (g : Grid) (r c : Nat) : Nat := lget 0 (getRow g r) c

/-- Write `grid(r, c) = v`. -/
def gridSet (g : Grid) (r c v : Nat) : Grid := setRow g r (lset (getRow g r) c v)

/-- A zero-initialized buffer, as produced by `std::vector<u8>` value
initialization (main.cpp lines 133-134). -/
def zeros (rows cols : Nat) : Grid := List.replicate rows (List.replicate cols 0)

/-- `g` has exactly `rows` rows of `cols` cells each. -/
def Shaped (g : Grid) (rows cols : Nat) : Prop :=
  g.length = rows ∧ ∀ r, r < rows → (getRow g r).length = cols

instance shapedDecidable (g : Grid) (rows cols : Nat) : Decidable (Shaped g rows cols) :=
  inferInstanceAs
    (Decidable (g.length = rows ∧ ∀ r, r < rows → (getRow g r).length = cols))

/-- `int left = (c == 0) ? grid_size - 1 : c - 1` (main.cpp line 221). -/
def left (n c : Nat) : Nat := if c = 0 then n - 1 else c - 1

/-- `int right = (c + 1 == grid_size) ? 0 : c + 1` (main.cpp line 222). -/
def right (n c : Nat) : Nat := if c + 1 = n then 0 else c + 1

/-- The 8-neighbor sum `nsum` (main.cpp lines 224-236). -/
def nsum (g : Grid) (n r c : Nat) : Nat :=
  gridGet g (r - 1) (left n c) + gridGet g (r - 1) c + gridGet g (r - 1) (right n c)
    + gridGet g r (left n c) + gridGet g r (right n c)
    + gridGet g (r + 1) (left n c) + gridGet g (r + 1) c + gridGet g (r + 1) (right n c)

/-- The survival/birth branch (main.cpp lines 238-247). -/
def next_cell (cur s : Nat) : Nat :=
  if cur = 1 then (if s = 2 ∨ s = 3 then 1 else 0) else (if s = 3 then 1 else 0)

/-- The value the loop body stores into `next_grid(r, c)` (lines 218-249). -/
def compute_cell (g : Grid) (n r c : Nat) : Nat := next_cell (gridGet g r c) (nsum g n r c)

/-- Apply a sequence of single-cell writes in order, each write taking its
value from the fixed function `f` (the loop body's store). -/
def applyWrites (f : Nat → Nat → Nat) (g : Grid) (ps : List (Nat × Nat)) : Grid :=
  ps.foldl (fun acc q => gridSet acc q.1 q.2 (f q.1 q.2)) g

/-- The (row, column) pairs visited by the compute loop, in source order:
`for (r = 1; r <= local_rows; r++) for (c = 0; c < grid_size; c++)`
(main.cpp lines 218-219). -/
def cell_list (local_rows n : Nat) : List (Nat × Nat) :=
  List.flatten ((List.range' 1 local_rows).map fun r => (List.range n).map fun c => (r, c))

/-- The compute loop of one generation (main.cpp lines 218-251): every owned
cell of the next buffer receives the stencil value read from the current
buffer. -/
def compute_phase (n local_rows : Nat) (cur nxt : Grid) : Grid :=
  applyWrites (compute_cell cur n) nxt (cell_list local_rows n)

/-- The pair of buffers `grid_buf` / `next_buf` (main.cpp lines 133-134). -/
structure Buffers where
  cur : Grid
  nxt : Grid
deriving DecidableEq

/-- One generation's compute acting on the buffer pair: it reads `cur` and
rewrites owned cells of `nxt`; `cur` is not written. -/
def compute_phase_buffers (n local_rows : Nat) (b : Buffers) : Buffers :=
  ⟨b.cur, compute_phase n local_rows b.cur b.nxt⟩

/-! ## Glider initialization (main.cpp lines 159-172) -/

/-- The 3×3 bit mask, rows listed in the order written by lines 160-170. -/
def glider_mask : Grid := [[0, 1, 0], [0, 0, 1], [1, 1, 1]]

/-- The cells written by the glider case, in source order (lines 160-170). -/
def glider_cells : List (Nat × Nat) :=
  [(1, 0), (1, 1), (1, 2), (2, 0), (2, 1), (2, 2), (3, 0), (3, 1), (3, 2)]

/-- The literal written at `grid(r, c)` by lines 160-170: entry `(r-1, c)` of
the mask. -/
def glider_value (r c : Nat) : Nat := gridGet glider_mask (r - 1) c

/-- The glider branch of the initialization switch (lines 159-172): the nine
stores in source order. -/
def glider_init (g : Grid) : Grid := applyWrites glider_value g glider_cells

/-- The mask translated to start at row `dr`, column `dc`; 0 elsewhere. -/
def glider_at (dr dc r c : Nat) : Nat :=
  if dr ≤ r ∧ r < dr + 3 ∧ dc ≤ c ∧ c < dc + 3 then gridGet glider_mask (r - dr) (c - dc)
  else 0

/-- A `rows × cols` buffer whose cell `(r, c)` holds `f r c`. -/
def mkGrid (rows cols : Nat) (f : Nat → Nat → Nat) : Grid :=
  (List.range rows).map fun r => (List.range cols).map fun c => f r c

/-- Bounds predicate for a cell access on a `(local_rows + 2) × n` buffer. -/
def in_bounds (local_rows n : Nat) (q : Nat × Nat) : Prop :=
  q.1 < local_rows + 2 ∧ q.2 < n

instance inBoundsDecidable (local_rows n : Nat) (q : Nat × Nat) :
    Decidable (in_bounds local_rows n q) :=
  inferInstanceAs (Decidable (q.1 < local_rows + 2 ∧ q.2 < n))

/-! ## Single-worker generation (`size = 1`)

With one worker, `up = down = rank = 0` and the four halo messages are
self-sends: the receive into row 0 (tag 0) is matched by the send of owned
row `local_rows` (tag 0), and the receive into row `local_rows + 1` (tag 1)
by the send of owned row 1 (tag 1).  The exchange therefore copies the
worker's own boundary rows into its own halo rows. -/

/-- Halo exchange of one generation specialized to a single worker
(main.cpp lines 187-211). -/
def exchange_self (local_rows : Nat) (g : Grid) : Grid :=
  setRow (setRow g 0 (getRow g local_rows)) (local_rows + 1) (getRow g 1)

/-- One full generation for a single worker: exchange, compute, swap
(main.cpp lines 180-297; diagnostics and file output do not touch the
buffers). -/
def generation_self (n local_rows : Nat) (b : Buffers) : Buffers :=
  let cur := exchange_self local_rows b.cur
  ⟨compute_phase n local_rows cur b.nxt, cur⟩

/-- Iterate `steps` generations of the single-worker loop. -/
def run_self (n local_rows : Nat) : Nat → Buffers → Buffers
  | 0, b => b
  | k + 1, b => run_self n local_rows k (generation_self n local_rows b)

/-! ## Spec-side stencil definitions (for the refinement claim C1)

These four definitions follow the wording of spec §4.4, to be compared with
the source-derived `compute_phase`: "left neighbor column is
`(c==0) ? n-1 : c-1`; right neighbor column is `(c==n-1) ? 0 : c+1`"; "a live
cell (state 1) survives iff neighbor sum is 2 or 3; a dead cell (state 0)
becomes live iff neighbor sum is exactly 3; all other outcomes yield
state 0". -/

def spec_left (n c : Nat) : Nat := if c = 0 then n - 1 else c - 1

def spec_right (n c : Nat) : Nat := if c = n - 1 then 0 else c + 1

def spec_nsum (g : Grid) (n r c : Nat) : Nat :=
  gridGet g (r - 1) (spec_left n c) + gridGet g (r - 1) c + gridGet g (r - 1) (spec_right n c)
    + gridGet g r (spec_left n c) + gridGet g r (spec_right n c)
    + gridGet g (r + 1) (spec_left n c) + gridGet g (r + 1) c
    + gridGet g (r + 1) (spec_right n c)

def spec_rule (cur s : Nat) : Nat :=
  if cur = 1 then (if s = 2 ∨ s = 3 then 1 else 0)
  else if cur = 0 then (if s = 3 then 1 else 0)
  else 0

def spec_next_cell (g : Grid) (n r c : Nat) : Nat := spec_rule (gridGet g r c) (spec_nsum g n r c)

/-- A concrete configuration with `grid_size = 8` (all other fields default). -/
def sd8 : SimulationData := ⟨8, 32, 1, 1, 64, IDType.random_id⟩

/-- A concrete configuration with `grid_size = 2` (all other fields default). -/
def sd2 : SimulationData := ⟨2, 32, 1, 1, 64, IDType.random_id⟩

/-! ## Basic facts about the partitioner -/

theorem local_rows_eq (sd : SimulationData) (r p : Nat) :
    (compute_partition sd r p).local_rows
      = sd.grid_size / p + (if r < sd.grid_size % p then 1 else 0) := rfl

theorem row_offset_eq (sd : SimulationData) (r p : Nat) :
    (compute_partition sd r p).row_offset
      = sd.grid_size / p * r + min r (sd.grid_size % p) := rfl

/-- The ownership ranges of consecutive ranks are contiguous. -/
theorem row_offset_add_local (sd : SimulationData) (p r : Nat) :
    (compute_partition sd (r+1) p).row_offset
      = (compute_partition sd r p).row_offset + (compute_partition sd r p).local_rows := by
  rw [row_offset_eq, row_offset_eq, local_rows_eq, Nat.mul_succ]
  rcases Nat.lt_or_ge r (sd.grid_size % p) with h | h
  · rw [if_pos h]; omega
  · rw [if_neg (by omega)]; omega

/-- `row_offset` is monotone in the rank. -/
theorem row_offset_mono (sd : SimulationData) (p : Nat) {r s : Nat} (h : r ≤ s) :
    (compute_partition sd r p).row_offset ≤ (compute_partition sd s p).row_offset := by
  rw [row_offset_eq, row_offset_eq]
  exact Nat.add_le_add (Nat.mul_le_mul (Nat.le_refl _) h) (min_le_min h (Nat.le_refl _))

/-- The first `k` ranks' local row counts sum to rank `k`'s row offset. -/
theorem sum_local_rows_eq (sd : SimulationData) (p : Nat) :
    ∀ k, (Finset.sum (Finset.range k) fun r => (compute_partition sd r p).local_rows)
      = (compute_partition sd k p).row_offset := by
  intro k
  induction k with
  | zero => simp [row_offset_eq]
  | succ k ih => rw [Finset.sum_range_succ, row_offset_add_local, ih]

/-- C2: for every global size `n`, worker count `p`, and worker index `r` with
`0 ≤ r < p`, `compute_partition` returns `local_rows = n/p + (1 if r < n%p else 0)`
and `row_offset = r*(n/p) + min(r, n%p)`, and calling it twice with identical
inputs yields identical output. -/
theorem partition_formula (sd : SimulationData) (p r : Nat) (_h : r < p) :
    (compute_partition sd r p).local_rows
        = sd.grid_size / p + (if r < sd.grid_size % p then 1 else 0)
      ∧ (compute_partition sd r p).row_offset
        = r * (sd.grid_size / p) + min r (sd.grid_size % p)
      ∧ compute_partition sd r p = compute_partition sd r p := by
  refine ⟨local_rows_eq sd r p, ?_, rfl⟩
  rw [row_offset_eq, Nat.mul_comm]

/-- Witness for C2 at `n = 8`, `p = 3`, `r = 1`. -/
theorem partition_formula_witness :
    (compute_partition sd8 1 3).local_rows = 8 / 3 + (if 1 < 8 % 3 then 1 else 0)
      ∧ (compute_partition sd8 1 3).row_offset = 1 * (8 / 3) + min 1 (8 % 3)
      ∧ compute_partition sd8 1 3 = compute_partition sd8 1 3 :=
  partition_formula sd8 3 1 (by decide)

/-- C3: for every global size and worker count `p ≥ 1`, the local row counts sum
to the global size, the ownership ranges of distinct workers are pairwise
disjoint, and consecutive workers' ranges are contiguous. -/
theorem partition_covers (sd : SimulationData) (p : Nat) (hp : 1 ≤ p) :
    (Finset.sum (Finset.range p) fun r => (compute_partition sd r p).local_rows)
        = sd.grid_size
      ∧ (∀ r, r + 1 < p →
          (compute_partition sd (r+1) p).row_offset
            = (compute_partition sd r p).row_offset + (compute_partition sd r p).local_rows)
      ∧ (∀ r₁ r₂, r₁ < p → r₂ < p → r₁ ≠ r₂ → ∀ x,
          (compute_partition sd r₁ p).row_offset ≤ x →
          x < (compute_partition sd r₁ p).row_offset + (compute_partition sd r₁ p).local_rows →
          ¬((compute_partition sd r₂ p).row_offset ≤ x
            ∧ x < (compute_partition sd r₂ p).row_offset
                    + (compute_partition sd r₂ p).local_rows)) := by
  have hm : sd.grid_size % p < p := Nat.mod_lt _ hp
  refine ⟨?_, fun r _ => row_offset_add_local sd p r, ?_⟩
  · rw [sum_local_rows_eq, row_offset_eq, Nat.min_eq_right hm.le, Nat.mul_comm]
    exact Nat.div_add_mod sd.grid_size p
  · intro r₁ r₂ h₁ h₂ hne x hx₁ hx₂ hmem
    rcases Nat.lt_or_ge r₁ r₂ with hlt | hge
    · have : (compute_partition sd (r₁+1) p).row_offset
          ≤ (compute_partition sd r₂ p).row_offset := row_offset_mono sd p hlt
      rw [row_offset_add_local] at this
      omega
    · have hlt : r₂ < r₁ := Nat.lt_of_le_of_ne hge (Ne.symm hne)
      have : (compute_partition sd (r₂+1) p).row_offset
          ≤ (compute_partition sd r₁ p).row_offset := row_offset_mono sd p hlt
      rw [row_offset_add_local] at this
      omega

/-- Witness for C3 at `n = 8`, `p = 3`: row counts `{3, 3, 2}`, contiguous and
disjoint ranges. -/
theorem partition_covers_witness :
    (Finset.sum (Finset.range 3) fun r => (compute_partition sd8 r 3).local_rows) = 8
      ∧ (compute_partition sd8 1 3).row_offset
          = (compute_partition sd8 0 3).row_offset + (compute_partition sd8 0 3).local_rows
      ∧ ¬((compute_partition sd8 1 3).row_offset ≤ 0
          ∧ 0 < (compute_partition sd8 1 3).row_offset
                  + (compute_partition sd8 1 3).local_rows) :=
  ⟨(partition_covers sd8 3 (by decide)).1,
   (partition_covers sd8 3 (by decide)).2.1 0 (by decide),
   (partition_covers sd8 3 (by decide)).2.2 0 1 (by decide) (by decide) (by decide) 0
     (by decide) (by decide)⟩

/-! ## Reads and writes on grid buffers -/

theorem lset_length {α : Type} (l : List α) (n : Nat) (v : α) :
    (lset l n v).length = l.length := by
  induction l generalizing n with
  | nil => rfl
  | cons x xs ih =>
    cases n with
    | zero => rfl
    | succ n => simpa [lset] using ih n

theorem lset_oob {α : Type} {l : List α} {n : Nat} (v : α) (h : l.length ≤ n) :
    lset l n v = l := by
  induction l generalizing n with
  | nil => rfl
  | cons x xs ih =>
    cases n with
    | zero => exact absurd h (by simp)
    | succ n =>
      show x :: lset xs n v = x :: xs
      rw [ih (by simpa using h)]

theorem lget_lset_self {α : Type} (d : α) {l : List α} {n : Nat} (v : α) (h : n < l.length) :
    lget d (lset l n v) n = v := by
  induction l generalizing n with
  | nil => exact absurd h (by simp)
  | cons x xs ih =>
    cases n with
    | zero => rfl
    | succ n => exact ih (by simpa using h)

theorem lget_lset_ne {α : Type} (d : α) {l : List α} {m n : Nat} (v : α) (h : m ≠ n) :
    lget d (lset l n v) m = lget d l m := by
  induction l generalizing m n with
  | nil => rfl
  | cons x xs ih =>
    cases n with
    | zero =>
      cases m with
      | zero => exact absurd rfl h
      | succ m => rfl
    | succ n =>
      cases m with
      | zero => rfl
      | succ m => exact ih fun hh => h (by rw [hh])

theorem lget_replicate {α : Type} (d a : α) (k n : Nat) :
    lget d (List.replicate k a) n = if n < k then a else d := by
  induction k generalizing n with
  | zero => simp [List.replicate, lget]
  | succ k ih =>
    cases n with
    | zero => simp [List.replicate, lget]
    | succ n => simpa [List.replicate, lget, Nat.succ_lt_succ_iff] using ih n

theorem getRow_setRow_self (g : Grid) {r : Nat} (row : List Nat) (h : r < g.length) :
    getRow (setRow g r row) r = row := lget_lset_self [] row h

theorem getRow_setRow_ne (g : Grid) {r s : Nat} (row : List Nat) (h : s ≠ r) :
    getRow (setRow g r row) s = getRow g s := lget_lset_ne [] row h

theorem gridGet_gridSet_ne (g : Grid) {r c s b : Nat} (v : Nat) (h : (s, b) ≠ (r, c)) :
    gridGet (gridSet g r c v) s b = gridGet g s b := by
  by_cases hr : s = r
  · subst hr
    have hc : b ≠ c := fun hh => h (by rw [hh])
    by_cases hlen : s < g.length
    · show lget 0 (getRow (setRow g s (lset (getRow g s) c v)) s) b = _
      rw [getRow_setRow_self g _ hlen]
      exact lget_lset_ne 0 v hc
    · show lget 0 (getRow (setRow g s (lset (getRow g s) c v)) s) b = _
      unfold setRow
      rw [lset_oob _ (by omega)]
      rfl
  · show lget 0 (getRow (setRow g r (lset (getRow g r) c v)) s) b = _
    rw [getRow_setRow_ne g _ hr]
    rfl

theorem gridGet_gridSet_self (g : Grid) {r c : Nat} (v : Nat) (hr : r < g.length)
    (hc : c < (getRow g r).length) :
    gridGet (gridSet g r c v) r c = v := by
  show lget 0 (getRow (setRow g r (lset (getRow g r) c v)) r) c = v
  rw [getRow_setRow_self g _ hr]
  exact lget_lset_self 0 v hc

theorem gridSet_shaped {g : Grid} {R C : Nat} (hs : Shaped g R C) (r c v : Nat) :
    Shaped (gridSet g r c v) R C := by
  obtain ⟨hlen, hrow⟩ := hs
  refine ⟨by simpa [gridSet, setRow, lset_length] using hlen, ?_⟩
  intro s hsR
  by_cases hsr : s = r
  · subst hsr
    by_cases hlt : s < g.length
    · show (getRow (setRow g s (lset (getRow g s) c v)) s).length = C
      rw [getRow_setRow_self g _ hlt, lset_length]
      exact hrow s hsR
    · show (getRow (setRow g s (lset (getRow g s) c v)) s).length = C
      unfold setRow
      rw [lset_oob _ (by omega)]
      exact hrow s hsR
  · show (getRow (setRow g r (lset (getRow g r) c v)) s).length = C
    rw [getRow_setRow_ne g _ hsr]
    exact hrow s hsR

theorem zeros_shaped (R C : Nat) : Shaped (zeros R C) R C := by
  refine ⟨by simp [zeros], ?_⟩
  intro r hr
  show (lget [] (List.replicate R (List.replicate C 0)) r).length = C
  rw [lget_replicate, if_pos hr]
  simp

theorem zeros_get (R C r c : Nat) : gridGet (zeros R C) r c = 0 := by
  show lget 0 (lget [] (List.replicate R (List.replicate C 0)) r) c = 0
  rw [lget_replicate]
  by_cases h : r < R
  · rw [if_pos h, lget_replicate]
    by_cases hc : c < C
    · rw [if_pos hc]
    · rw [if_neg hc]
  · rw [if_neg h]
    rfl

/-- A write sequence leaves unvisited cells unchanged. -/
theorem applyWrites_get_notmem (f : Nat → Nat → Nat) {r c : Nat} :
    ∀ (ps : List (Nat × Nat)) (g : Grid), (r, c) ∉ ps →
      gridGet (applyWrites f g ps) r c = gridGet g r c := by
  intro ps
  induction ps with
  | nil => intro g _; rfl
  | cons q ps ih =>
    intro g hmem
    obtain ⟨a, b⟩ := q
    show gridGet (applyWrites f (gridSet g a b (f a b)) ps) r c = gridGet g r c
    rw [ih _ fun hm => hmem (List.mem_cons_of_mem _ hm)]
    exact gridGet_gridSet_ne g _ fun hh => hmem (hh ▸ List.mem_cons_self _ _)

/-- A write sequence preserves the buffer shape. -/
theorem applyWrites_shaped (f : Nat → Nat → Nat) {R C : Nat} :
    ∀ (ps : List (Nat × Nat)) (g : Grid), Shaped g R C → Shaped (applyWrites f g ps) R C := by
  intro ps
  induction ps with
  | nil => intro g hs; exact hs
  | cons q ps ih =>
    intro g hs
    exact ih _ (gridSet_shaped hs q.1 q.2 _)

/-- Characterization of a write sequence on an in-shape buffer: a visited cell
holds its written value, every other cell its old value. -/
theorem applyWrites_get (f : Nat → Nat → Nat) {R C r c : Nat} (hr : r < R) (hc : c < C) :
    ∀ (ps : List (Nat × Nat)) (g : Grid), Shaped g R C →
      gridGet (applyWrites f g ps) r c
        = if (r, c) ∈ ps then f r c else gridGet g r c := by
  intro ps
  induction ps with
  | nil => intro g _; simp [applyWrites]
  | cons q ps ih =>
    intro g hs
    obtain ⟨a, b⟩ := q
    show gridGet (applyWrites f (gridSet g a b (f a b)) ps) r c = _
    rw [ih _ (gridSet_shaped hs a b _)]
    by_cases hmem : (r, c) ∈ ps
    · rw [if_pos hmem, if_pos (List.mem_cons_of_mem _ hmem)]
    · rw [if_neg hmem]
      by_cases heq : (r, c) = (a, b)
      · injection heq with h1 h2
        subst h1
        subst h2
        rw [if_pos (List.mem_cons_self _ _)]
        exact gridGet_gridSet_self g _ (hs.1 ▸ hr) (by rw [hs.2 r (hs.1 ▸ hr)]; exact hc)
      · rw [if_neg (by simp [List.mem_cons, heq, hmem])]
        exact gridGet_gridSet_ne g _ heq

/-- Membership in the compute loop's visit list. -/
theorem mem_cell_list {local_rows n r c : Nat} :
    (r, c) ∈ cell_list local_rows n ↔ 1 ≤ r ∧ r ≤ local_rows ∧ c < n := by
  unfold cell_list
  rw [List.mem_flatten]
  constructor
  · rintro ⟨l, hl, hc⟩
    rw [List.mem_map] at hl
    obtain ⟨rr, hrr, rfl⟩ := hl
    rw [List.mem_range'_1] at hrr
    rw [List.mem_map] at hc
    obtain ⟨cc, hcc, heq⟩ := hc
    rw [List.mem_range] at hcc
    injection heq with h1 h2
    subst h1
    subst h2
    exact ⟨hrr.1, by omega, hcc⟩
  · rintro ⟨h1, h2, h3⟩
    refine ⟨(List.range n).map fun cc => (r, cc), ?_, ?_⟩
    · rw [List.mem_map]
      exact ⟨r, List.mem_range'_1.mpr ⟨h1, by omega⟩, rfl⟩
    · rw [List.mem_map]
      exact ⟨c, List.mem_range.mpr h3, rfl⟩

/-! ## Ring neighbor arithmetic -/

theorem up_lt (p : Nat) (hp : 1 ≤ p) (i : Nat) : up p i < p := Nat.mod_lt _ hp

theorem down_lt (p : Nat) (hp : 1 ≤ p) (i : Nat) : down p i < p := Nat.mod_lt _ hp

/-- Going down then up returns to the start. -/
theorem up_down (p : Nat) (hp : 1 ≤ p) (i : Nat) (hi : i < p) : up p (down p i) = i := by
  show ((i + 1) % p + p - 1) % p = i
  have h1 : (i + 1) % p + p - 1 = (i + 1) % p + (p - 1) := by omega
  rw [h1, Nat.mod_add_mod]
  have h2 : i + 1 + (p - 1) = i + p := by omega
  rw [h2, Nat.add_mod_right, Nat.mod_eq_of_lt hi]

/-- Going up then down returns to the start. -/
theorem down_up (p : Nat) (hp : 1 ≤ p) (i : Nat) (hi : i < p) : down p (up p i) = i := by
  show ((i + p - 1) % p + 1) % p = i
  rw [Nat.mod_add_mod]
  have h1 : i + p - 1 + 1 = i + p := by omega
  rw [h1, Nat.add_mod_right, Nat.mod_eq_of_lt hi]

/-- Iterating `down` `k` times from `i` lands on `(i + k) % p`. -/
theorem down_iterate (p : Nat) (hp : 1 ≤ p) :
    ∀ k i, i < p → (down p)^[k] i = (i + k) % p := by
  intro k
  induction k with
  | zero => intro i hi; simp [Nat.mod_eq_of_lt hi]
  | succ k ih =>
    intro i hi
    rw [Function.iterate_succ_apply, ih _ (down_lt p hp i)]
    show ((i + 1) % p + k) % p = (i + (k + 1)) % p
    rw [Nat.mod_add_mod]
    congr 1
    omega

/-- C6: for every worker count `p ≥ 1` the neighbor maps are
`up = (i-1+p) mod p` and `down = (i+1) mod p`; `down` is a permutation of
`0..p-1` (maps into the range, injective, surjective) whose `p`-fold iteration
is the identity, and for `p = 1` the single worker is its own up and down
neighbor. -/
theorem ring_permutation (p : Nat) (hp : 1 ≤ p) :
    (∀ i, up p i = (i + p - 1) % p ∧ down p i = (i + 1) % p)
      ∧ (∀ i, i < p → up p i < p ∧ down p i < p)
      ∧ (∀ i j, i < p → j < p → down p i = down p j → i = j)
      ∧ (∀ j, j < p → ∃ i, i < p ∧ down p i = j)
      ∧ (∀ i, i < p → (down p)^[p] i = i)
      ∧ (p = 1 → up p 0 = 0 ∧ down p 0 = 0) := by
  refine ⟨fun i => ⟨rfl, rfl⟩, fun i hi => ⟨up_lt p hp i, down_lt p hp i⟩, ?_, ?_, ?_, ?_⟩
  · intro i j hi hj hd
    have h1 := up_down p hp i hi
    have h2 := up_down p hp j hj
    rw [← h1, ← h2, hd]
  · intro j hj
    exact ⟨up p j, up_lt p hp j, down_up p hp j hj⟩
  · intro i hi
    rw [down_iterate p hp p i hi, Nat.add_mod_right, Nat.mod_eq_of_lt hi]
  · rintro rfl
    exact ⟨rfl, rfl⟩

/-- Witness for C6 at `p = 3`, `i = 2`. -/
theorem ring_permutation_witness :
    (up 3 2 < 3 ∧ down 3 2 < 3) ∧ (down 3)^[3] 2 = 2 :=
  ⟨(ring_permutation 3 (by decide)).2.1 2 (by decide),
   (ring_permutation 3 (by decide)).2.2.2.2.1 2 (by decide)⟩

/-- C7: the halo tag/direction convention is symmetric.  The send of worker
`i`'s bottom owned row is addressed to `down i`, which posts a matching
receive for its top halo from `up (down i) = i` with the same tag; the send of
`i`'s top owned row is addressed to `up i`, which posts a matching receive for
its bottom halo from `down (up i) = i` with the same tag. -/
theorem halo_addressing (p : Nat) (hp : 1 ≤ p) (i : Nat) (hi : i < p) :
    recv_top_src p (send_down_dst p i) = i
      ∧ send_down_tag = recv_top_tag
      ∧ recv_bottom_src p (send_up_dst p i) = i
      ∧ send_up_tag = recv_bottom_tag :=
  ⟨up_down p hp i hi, rfl, down_up p hp i hi, rfl⟩

/-- Witness for C7 at `p = 2`, `i = 1`. -/
theorem halo_addressing_witness :
    recv_top_src 2 (send_down_dst 2 1) = 1
      ∧ send_down_tag = recv_top_tag
      ∧ recv_bottom_src 2 (send_up_dst 2 1) = 1
      ∧ send_up_tag = recv_bottom_tag :=
  halo_addressing 2 (by decide) 1 (by decide)

/-- C4 fails on the code: with `grid_size = 2` and `p = 4`, workers 2 and 3 do
get `local_rows = 0` and exit before the generation loop, but the surviving
workers 0 and 1 do not form a 2-worker ring: the code computes neighbors
modulo the full worker count, so worker 0's up neighbor is the exited worker 3
and worker 1's down neighbor is the exited worker 2. -/
theorem degenerate_ring_divergence :
    (compute_partition sd2 2 4).local_rows = 0
      ∧ (compute_partition sd2 3 4).local_rows = 0
      ∧ (compute_partition sd2 0 4).local_rows = 1
      ∧ (compute_partition sd2 1 4).local_rows = 1
      ∧ up 4 0 = 3
      ∧ down 4 1 = 2
      ∧ (compute_partition sd2 (up 4 0) 4).local_rows = 0
      ∧ (compute_partition sd2 (down 4 1) 4).local_rows = 0 := by decide

/-! ## The stencil update -/

/-- On in-range columns the code's wrap agrees with the spec's wrap and the
code's branch agrees with the spec's rule for binary cell states. -/
theorem compute_cell_eq_spec (g : Grid) (n r c : Nat) (hc : c < n)
    (hb : gridGet g r c = 0 ∨ gridGet g r c = 1) :
    compute_cell g n r c = spec_next_cell g n r c := by
  have hright : right n c = spec_right n c := by
    unfold right spec_right
    by_cases h : c + 1 = n
    · rw [if_pos h, if_pos (by omega)]
    · rw [if_neg h, if_neg (by omega)]
  have hleft : left n c = spec_left n c := rfl
  have hsum : nsum g n r c = spec_nsum g n r c := by
    unfold nsum spec_nsum
    rw [hright, hleft]
  unfold compute_cell spec_next_cell
  rw [hsum]
  rcases hb with h0 | h1
  · rw [h0]
    unfold next_cell spec_rule
    simp
  · rw [h1]
    unfold next_cell spec_rule
    simp

/-- C1: for every owned cell (row `r` in `1..local_rows`, column `c` in
`0..n-1`), the compute loop writes into the next buffer the value determined
by the 8-neighbor sum over the current halo-augmented buffer with periodic
column wrap: a live cell (1) stays 1 iff the sum is 2 or 3, a dead cell (0)
becomes 1 iff the sum is exactly 3, every other case yields 0. -/
theorem stencil_correct (n local_rows : Nat) (cur nxt : Grid)
    (hsh : Shaped nxt (local_rows + 2) n) (r c : Nat)
    (hr1 : 1 ≤ r) (hr2 : r ≤ local_rows) (hc : c < n)
    (hb : gridGet cur r c = 0 ∨ gridGet cur r c = 1) :
    gridGet (compute_phase n local_rows cur nxt) r c = spec_next_cell cur n r c := by
  unfold compute_phase
  rw [applyWrites_get (compute_cell cur n) (by omega) hc _ nxt hsh,
    if_pos (mem_cell_list.mpr ⟨hr1, hr2, hc⟩)]
  exact compute_cell_eq_spec cur n r c hc hb

/-- Witness for C1: a 3-column, 1-owned-row worker, cell (1, 0). -/
theorem stencil_correct_witness :
    gridGet (compute_phase 3 1 [[0, 0, 0], [1, 1, 0], [0, 1, 0]] (zeros 3 3)) 1 0
      = spec_next_cell [[0, 0, 0], [1, 1, 0], [0, 1, 0]] 3 1 0 :=
  stencil_correct 3 1 [[0, 0, 0], [1, 1, 0], [0, 1, 0]] (zeros 3 3) (by decide) 1 0
    (by decide) (by decide) (by decide) (by decide)

/-- C9: one generation's compute phase writes only the owned region of the
next buffer: the current buffer is unchanged, cells of the next buffer outside
rows `1..local_rows` × columns `0..n-1` are unchanged, and in particular the
two halo rows 0 and `local_rows + 1` of the next buffer are unchanged. -/
theorem compute_frame (n local_rows : Nat) (b : Buffers) :
    (compute_phase_buffers n local_rows b).cur = b.cur
      ∧ (∀ r c, ¬(1 ≤ r ∧ r ≤ local_rows ∧ c < n) →
          gridGet (compute_phase_buffers n local_rows b).nxt r c = gridGet b.nxt r c)
      ∧ (∀ c, gridGet (compute_phase_buffers n local_rows b).nxt 0 c = gridGet b.nxt 0 c)
      ∧ (∀ c, gridGet (compute_phase_buffers n local_rows b).nxt (local_rows + 1) c
          = gridGet b.nxt (local_rows + 1) c) := by
  refine ⟨rfl, ?_, ?_, ?_⟩
  · intro r c h
    exact applyWrites_get_notmem _ _ _ fun hm => h (mem_cell_list.mp hm)
  · intro c
    refine applyWrites_get_notmem _ _ _ fun hm => ?_
    have := mem_cell_list.mp hm
    omega
  · intro c
    refine applyWrites_get_notmem _ _ _ fun hm => ?_
    have := mem_cell_list.mp hm
    omega

/-- Witness for C9: a 2-column, 1-owned-row worker; the halo rows 0 and 2 of
the next buffer keep their old values 7 and 9 through the compute phase. -/
theorem compute_frame_witness :
    (compute_phase_buffers 2 1 ⟨[[1, 1], [1, 0], [0, 0]], [[7, 7], [8, 8], [9, 9]]⟩).cur
        = ([[1, 1], [1, 0], [0, 0]] : Grid)
      ∧ gridGet
          (compute_phase_buffers 2 1 ⟨[[1, 1], [1, 0], [0, 0]], [[7, 7], [8, 8], [9, 9]]⟩).nxt
          0 1 = gridGet ([[7, 7], [8, 8], [9, 9]] : Grid) 0 1
      ∧ gridGet
          (compute_phase_buffers 2 1 ⟨[[1, 1], [1, 0], [0, 0]], [[7, 7], [8, 8], [9, 9]]⟩).nxt
          2 0 = gridGet ([[7, 7], [8, 8], [9, 9]] : Grid) 2 0 :=
  ⟨(compute_frame 2 1 ⟨[[1, 1], [1, 0], [0, 0]], [[7, 7], [8, 8], [9, 9]]⟩).1,
   (compute_frame 2 1 ⟨[[1, 1], [1, 0], [0, 0]], [[7, 7], [8, 8], [9, 9]]⟩).2.1 0 1 (by decide),
   (compute_frame 2 1 ⟨[[1, 1], [1, 0], [0, 0]], [[7, 7], [8, 8], [9, 9]]⟩).2.1 2 0 (by decide)⟩

/-! ## Glider initialization -/

/-- Membership in the glider write list. -/
theorem mem_glider_cells {r c : Nat} :
    (r, c) ∈ glider_cells ↔ 1 ≤ r ∧ r ≤ 3 ∧ c < 3 := by
  simp [glider_cells, Prod.ext_iff]
  omega

/-- C5 fails on the code: the glider branch of the initialization switch runs
on every rank (it does not test `rank` or `row_offset`), so a worker that does
not own the first global rows also gets the mask.  Concretely, with
`grid_size = 8` and `p = 2`, worker 1 has `row_offset = 4 ≠ 0` yet its owned
cell (1, 1) is 1 after initialization rather than its zero-initialized
state. -/
theorem glider_everywhere_cex :
    (compute_partition sd8 1 2).row_offset ≠ 0
      ∧ gridGet
          (glider_init (zeros ((compute_partition sd8 1 2).local_rows + 2) sd8.grid_size))
          1 1 = 1 := by decide

/-- C5 amended: the glider branch writes the fixed 3×3 mask into rows 1..3,
columns 0..2 of every worker's buffer, regardless of the worker's row offset;
all other cells of the buffer keep their zero-initialized state. -/
theorem glider_init_every_worker (local_rows n : Nat) (_h2 : 2 ≤ local_rows) (_h3 : 3 ≤ n)
    (r c : Nat) (hr : r < local_rows + 2) (hc : c < n) :
    gridGet (glider_init (zeros (local_rows + 2) n)) r c = glider_at 1 0 r c := by
  unfold glider_init
  rw [applyWrites_get glider_value hr hc glider_cells _ (zeros_shaped _ _)]
  by_cases hmem : (r, c) ∈ glider_cells
  · rw [if_pos hmem]
    obtain ⟨ha, hb, hcc⟩ := mem_glider_cells.mp hmem
    unfold glider_value glider_at
    rw [if_pos (by omega)]
    rfl
  · rw [if_neg hmem, zeros_get]
    have hnot : ¬(1 ≤ r ∧ r ≤ 3 ∧ c < 3) := fun h => hmem (mem_glider_cells.mpr h)
    unfold glider_at
    rw [if_neg (by omega)]

/-- Witness for the amended C5: worker shape 2 owned rows × 3 columns,
cell (1, 1) holds the mask value. -/
theorem glider_init_every_worker_witness :
    gridGet (glider_init (zeros (2 + 2) 3)) 1 1 = glider_at 1 0 1 1 :=
  glider_init_every_worker 2 3 (by decide) (by decide) 1 1 (by decide) (by decide)

/-- C10 fails as stated: with `grid_size = 2` and `local_rows = 2` the
right-hand side `2 ≤ local_rows` holds, but the glider write to column 2 is
out of bounds, so the accesses are not all in bounds. -/
theorem glider_bounds_cex :
    ¬((∀ q ∈ glider_cells, in_bounds 2 2 q) ↔ 2 ≤ 2) := by decide

/-- C10 amended: the glider writes touch exactly rows 1..3, columns 0..2, and
they are all within the `(local_rows + 2) × grid_size` buffer bounds iff
`local_rows ≥ 2` and `grid_size ≥ 3`; for a worker with `local_rows = 1`
(e.g. worker count equal to grid size, which makes every `local_rows` equal 1)
the writes to row 3 fall outside the buffer. -/
theorem glider_bounds (local_rows n : Nat) :
    ((∀ q ∈ glider_cells, in_bounds local_rows n q) ↔ 2 ≤ local_rows ∧ 3 ≤ n)
      ∧ (local_rows = 1 → ∀ c, ¬in_bounds local_rows n (3, c))
      ∧ (∀ sd : SimulationData, ∀ r, 1 ≤ sd.grid_size → r < sd.grid_size →
          (compute_partition sd r sd.grid_size).local_rows = 1) := by
  refine ⟨⟨?_, ?_⟩, ?_, ?_⟩
  · intro hball
    have h1 := hball (3, 0) (by decide)
    have h2 := hball (1, 2) (by decide)
    unfold in_bounds at h1 h2
    simp only [] at h1 h2
    exact ⟨by omega, by omega⟩
  · rintro ⟨hl, hn⟩ q hq
    obtain ⟨a, b⟩ := q
    have hm := mem_glider_cells.mp hq
    refine ⟨?_, ?_⟩
    · show a < local_rows + 2
      omega
    · show b < n
      omega
  · rintro rfl c h
    have h1 : (3 : Nat) < 1 + 2 := h.1
    omega
  · intro sd r h1 hr
    rw [local_rows_eq, Nat.mod_self, Nat.div_self (by omega : 0 < sd.grid_size)]
    simp

/-- Witness for the amended C10 at `local_rows = 1`, `n = 5`, and the
partition of `grid_size = 8` over 8 workers at rank 3. -/
theorem glider_bounds_witness :
    ((∀ q ∈ glider_cells, in_bounds 1 5 q) ↔ 2 ≤ 1 ∧ 3 ≤ 5)
      ∧ ¬in_bounds 1 5 (3, 0)
      ∧ (compute_partition sd8 3 8).local_rows = 1 :=
  ⟨(glider_bounds 1 5).1, (glider_bounds 1 5).2.1 rfl 0,
   (glider_bounds 1 5).2.2 sd8 3 (by decide) (by decide)⟩

/-! ## The glider invariant -/

set_option maxRecDepth 10000 in
/-- C8: starting from the canonical glider shape placed away from the
boundary of a 10×10 periodic grid (single worker, `local_rows = 10`), four
generations of the full loop (exchange, compute, swap) reproduce the same
5-cell shape translated by exactly one row and one column diagonally. -/
theorem glider_translates :
    ((run_self 10 10 4 ⟨mkGrid 12 10 (glider_at 2 1), zeros 12 10⟩).cur.drop 1).take 10
      = (List.range' 1 10).map fun r => (List.range 10).map fun c => glider_at 3 2 r c := by
  decide

end MpiGol
